import Mathlib

/-!
Verification of the SYCL kernel-identification, registry, reachability and
argument-marshalling pipeline (lib/SYCL of the repository).

The C++ passes are shallowly embedded: strings (`StringRef`, `std::string`)
become lists of characters, the external Itanium demangler becomes a
parameter `dem : Str → Option Str` (`none` models demangling failure), the
target data layout's `getTypeAllocSize` becomes a parameter
`allocSize : Ty → Nat`, and the process-wide registry state
(`SimplerKernelNames` / `NextKernelID` of SYCLKernel.cpp) is threaded as an
explicit `KernelRegistry` record.  The `std::map` of the registry is
embedded as an association list with lookup by key; fatal `assert`
failures on missing runtime-contract symbols are embedded as the error
branch of `Except`.
-/

set_option autoImplicit false

namespace SYCLSpec

/-- Character strings of the model: `StringRef` and `std::string` values of
the source are embedded as their character sequences, so that prefix tests
(`StringRef::startswith`) become `List.isPrefixOf`. -/
abbrev Str := List Char

/-- The marker text `SYCLKernelPrefix` of SYCLKernel.cpp line 44: the
demangled name of a kernel starts with this instantiation-template text. -/
def SYCLKernelMarker : Str :=
  "void cl::sycl::detail::instantiate_kernel<".toList

/-- The short-name text `SYCLKernelShortPrefix` of SYCLKernel.cpp line 48,
put in front of the decimal ID to build a renamed kernel's name. -/
def SYCLKernelShortPfx : Str := "TRISYCL_kernel_".toList

/-- Embedding of `sycl::isKernel` (SYCLKernel.cpp lines 51-80): an unnamed
function is not a kernel; a name already carrying the short-name text is a
kernel; otherwise the name is demangled and on success compared by prefix
against the kernel-instantiation marker, while demangling failure means
"not a kernel".  The demangler is the parameter `dem`. -/
def isKernel (dem : Str → Option Str) (name : Str) : Bool :=
  if name.isEmpty then false
  else if SYCLKernelShortPfx.isPrefixOf name then true
  else
    match dem name with
    | some demangled => SYCLKernelMarker.isPrefixOf demangled
    | none => false

/-- The process-wide registry state of SYCLKernel.cpp lines 137-140: the
map `SimplerKernelNames` from full kernel name to integer ID, embedded as
an association list, and the counter `NextKernelID`. -/
structure KernelRegistry where
  simplerKernelNames : List (Str × Nat)
  nextKernelID : Nat
deriving DecidableEq

/-- Key lookup in the association list embedding `SimplerKernelNames`. -/
def lookupName : List (Str × Nat) → Str → Option Nat
  | [], _ => none
  | (k, v) :: rest, n => if k = n then some v else lookupName rest n

/-- Embedding of `registerSYCLKernel` (SYCLKernel.cpp lines 146-153):
`std::map::emplace` either finds the existing binding and leaves the state
alone, or inserts the name bound to `NextKernelID` and increments the
counter; the bound ID is returned either way. -/
def registerSYCLKernel (longKernelName : Str) (R : KernelRegistry) :
    Nat × KernelRegistry :=
  match lookupName R.simplerKernelNames longKernelName with
  | some id => (id, R)
  | none =>
    (R.nextKernelID,
     ⟨R.simplerKernelNames ++ [(longKernelName, R.nextKernelID)],
      R.nextKernelID + 1⟩)

/-- Embedding of `constructSYCLKernelShortName` (SYCLKernel.cpp lines
157-161): the short-name text followed by the decimal ID. -/
def constructSYCLKernelShortName (id : Nat) : Str :=
  SYCLKernelShortPfx ++ (Nat.repr id).toList

/-- Embedding of `registerSYCLKernelAndGetShortName` (SYCLKernel.cpp lines
167-170): register, then format the returned ID. -/
def registerSYCLKernelAndGetShortName (longKernelName : Str)
    (R : KernelRegistry) : Str × KernelRegistry :=
  let r := registerSYCLKernel longKernelName R
  (constructSYCLKernelShortName r.1, r.2)

/-- The fragment of the LLVM type language the serialization passes look
at: a kernel argument is classified by whether its type is a pointer type
(`dyn_cast<PointerType>`); everything else is passed by value. -/
inductive Ty where
  | int (bits : Nat)
  | floatTy
  | doubleTy
  | pointer (addrSpace : Nat) (pointee : Ty)
deriving DecidableEq

/-- One emitted `serialize_arg(task, index, arg, size)` call, recorded with
its argument index, whether the argument value was first spilled to a
fresh `alloca` (the non-pointer branch) or directly cast to `i8*` (the
pointer branch), and the emitted size operand. -/
structure SerializeCall where
  index : Nat
  viaAlloca : Bool
  size : Nat
deriving DecidableEq

/-- The then/else branches of the argument loop shared by
SYCLSerializeArguments.cpp (lines 180-208) and
SYCLSerializeArgumentsInside.cpp (lines 142-170): a pointer argument is
cast to `i8*` and serialized with the allocation size of its pointee type;
any other argument is stored into a fresh `alloca`, whose address is cast
to `i8*` and serialized with the allocation size of the value's own type.
The data layout's `getTypeAllocSize` is the parameter `allocSize`. -/
def serializeOneArg (allocSize : Ty → Nat) (index : Nat) (ty : Ty) :
    SerializeCall :=
  match ty with
  | Ty.pointer _ pointee =>
    { index := index, viaAlloca := false, size := allocSize pointee }
  | t => { index := index, viaAlloca := true, size := allocSize t }

/-- The argument loop of both serialization passes: `IndexNumber` starts at
the given value (0 at the call sites) and is incremented once per
argument, in argument order. -/
def serializeArgLoop (allocSize : Ty → Nat) (index : Nat) :
    List Ty → List SerializeCall
  | [] => []
  | a :: rest =>
    serializeOneArg allocSize index a ::
      serializeArgLoop allocSize (index + 1) rest

/-- Embedding of the serialize-call emission of
`SYCLSerializeArguments::serializeKernelArguments` (lines 171-210): the
loop runs over the kernel call site's arguments with `IndexNumber`
starting at 0. -/
def serializeKernelArguments (allocSize : Ty → Nat) (args : List Ty) :
    List SerializeCall :=
  serializeArgLoop allocSize 0 args

/-- Embedding of the serialize-call emission of
`SYCLSerializeArgumentsInside::serializeKernelArguments` (lines 127-172):
the first function argument is the task and is skipped (`*A++`), and the
loop runs over the remaining arguments with `IndexNumber` starting at 0;
`argsAfterTask` is that remaining argument list. -/
def serializeKernelArgumentsInside (allocSize : Ty → Nat)
    (argsAfterTask : List Ty) : List SerializeCall :=
  serializeArgLoop allocSize 0 argsAfterTask

/-- Modelled from the spec's wording of 4.6 ArgumentsSerialized, for the
refinement statement of C1: "for each remaining argument, by position
index starting at 0", the pointer-like classification serializes the
pointee's storage size and the value-like classification spills and
serializes the value's own storage size. -/
def specSerializeArg (allocSize : Ty → Nat) (p : Nat × Ty) : SerializeCall :=
  match p.2 with
  | Ty.pointer _ pointee =>
    { index := p.1, viaAlloca := false, size := allocSize pointee }
  | t => { index := p.1, viaAlloca := true, size := allocSize t }

/-- The spec-side serialize-call list: every argument paired with its
position index, in original argument order. -/
def specSerializeCalls (allocSize : Ty → Nat) (args : List Ty) :
    List SerializeCall :=
  args.enum.map (specSerializeArg allocSize)

/-- A call-graph node's function as the reachability engine sees it
(SYCLKernel.cpp lines 93-126): an identity (pointers `Function *` are
compared for membership in `hasKernelAncestorFunctionList`, embedded as a
numeric identity), the linkage name fed to `isKernel`, and the list of the
function's uses in iteration order, where an entry is `some p` when the
use's user is a call/invoke instruction whose enclosing function has
identity `p`, and `none` when the user is not a call site
(`CS.getInstruction()` null). -/
structure CGFunction where
  fid : Nat
  name : Str
  uses : List (Option Nat)
deriving DecidableEq

/-- Embedding of `hasAncestorKernel` (SYCLKernel.cpp lines 93-107): walk
the uses in order; a non-call use is skipped; at the first call-site use
the loop returns immediately, with true exactly when that call site's
enclosing function is already in the list; no call-site use means
false. -/
def hasAncestorKernel (uses : List (Option Nat)) (lst : List Nat) : Bool :=
  match uses with
  | [] => false
  | none :: rest => hasAncestorKernel rest lst
  | some parent :: _ => lst.contains parent

/-- Embedding of the inner loop of `computeAncestorNode` over one
strongly-connected component (SYCLKernel.cpp lines 119-124): nodes with a
null function (`none`) are skipped; a function is appended to the list
when it is a kernel or `hasAncestorKernel` holds against the list built so
far. -/
def processSCC (dem : Str → Option Str) (nodes : List (Option CGFunction))
    (lst : List Nat) : List Nat :=
  match nodes with
  | [] => lst
  | none :: rest => processSCC dem rest lst
  | some F :: rest =>
    if isKernel dem F.name || hasAncestorKernel F.uses lst then
      processSCC dem rest (lst ++ [F.fid])
    else
      processSCC dem rest lst

/-- Embedding of `computeAncestorNode` (SYCLKernel.cpp lines 110-126): the
strongly-connected components are processed in the order produced by
`scc_begin`, which enumerates them bottom-up (callees before callers);
that enumeration order is the order of the input list `sccs`. -/
def computeAncestorNode (dem : Str → Option Str)
    (sccs : List (List (Option CGFunction))) (lst : List Nat) : List Nat :=
  match sccs with
  | [] => lst
  | scc :: rest => computeAncestorNode dem rest (processSCC dem scc lst)

/-- Embedding of `updateHasKernelAncestorFunctionList` (SYCLKernel.cpp
lines 129-134): a newly created call-graph node's function is appended
when `hasAncestorKernel` holds against the current list. -/
def updateHasKernelAncestorFunctionList (newNode : CGFunction)
    (lst : List Nat) : List Nat :=
  if hasAncestorKernel newNode.uses lst then lst ++ [newNode.fid] else lst

/-- The parent function of the first use that is a call site, in use
iteration order: the caller the reachability engine actually consults. -/
def firstCallSiteParent : List (Option Nat) → Option Nat
  | [] => none
  | none :: rest => firstCallSiteParent rest
  | some parent :: _ => some parent

/-- Modelled from the spec's wording of 4.3 for the refinement statement
of C4: one visitation step adds a function to the set when it is itself a
kernel or when the parent of its first discovered call site is already a
member; a node without a function, or a function with no call-site use,
adds nothing. -/
def reachableStep (dem : Str → Option Str) (lst : List Nat)
    (node : Option CGFunction) : List Nat :=
  match node with
  | none => lst
  | some F =>
    if isKernel dem F.name ||
        (match firstCallSiteParent F.uses with
         | some parent => lst.contains parent
         | none => false) then
      lst ++ [F.fid]
    else
      lst

/-- The linkage classes the partitioner distinguishes: it writes
`ExternalLinkage` or `InternalLinkage`; `linkOnce` stands for any other
incoming linkage a value may carry before the pass runs. -/
inductive Linkage where
  | external
  | internal
  | linkOnce
deriving DecidableEq

/-- A module function as SYCLKernelFilter.cpp sees it: linkage name,
declaration-or-definition, linkage class. -/
structure MFunction where
  name : Str
  isDecl : Bool
  linkage : Linkage
deriving DecidableEq

/-- A module global variable: name, declaration flag, linkage class. -/
structure MGlobal where
  name : Str
  isDecl : Bool
  linkage : Linkage
deriving DecidableEq

/-- A module global alias: name and linkage class. -/
structure MAlias where
  name : Str
  linkage : Linkage
deriving DecidableEq

/-- The module as the partitioner sees it.  `globalCtors` is the list of
entries of the static-initializer list that
`optimizeGlobalCtorsList(M, always-true)` empties. -/
structure SModule where
  functions : List MFunction
  globals : List MGlobal
  aliases : List MAlias
  globalCtors : List Str
deriving DecidableEq

/-- Embedding of `SYCLKernelFilter::handleKernel` (SYCLKernelFilter.cpp
lines 73-78): mark the kernel external and rename it to the short name the
registry returns for its current name. -/
def handleKernel (R : KernelRegistry) (F : MFunction) :
    MFunction × KernelRegistry :=
  let r := registerSYCLKernelAndGetShortName F.name R
  ({ F with linkage := Linkage.external, name := r.1 }, r.2)

/-- Embedding of `SYCLKernelFilter::handleNonKernel` (lines 83-88): mark
the function internal. -/
def handleNonKernel (F : MFunction) : MFunction :=
  { F with linkage := Linkage.internal }

/-- The function loop of `SYCLKernelFilter::runOnModule` (lines 93-103):
declarations are skipped; defined kernels go through `handleKernel`
(threading the registry state), everything else through
`handleNonKernel`. -/
def filterFunctions (dem : Str → Option Str) :
    List MFunction → KernelRegistry → List MFunction × KernelRegistry
  | [], R => ([], R)
  | F :: rest, R =>
    if F.isDecl then
      let r := filterFunctions dem rest R
      (F :: r.1, r.2)
    else if isKernel dem F.name then
      let k := handleKernel R F
      let r := filterFunctions dem rest k.2
      (k.1 :: r.1, r.2)
    else
      let r := filterFunctions dem rest R
      (handleNonKernel F :: r.1, r.2)

/-- The global-variable loop of `SYCLKernelFilter::runOnModule` (lines
107-114): a defined global whose name does not carry the reserved
`llvm.` intrinsic text is marked internal; others are left alone. -/
def filterGlobal (G : MGlobal) : MGlobal :=
  if !G.isDecl && !("llvm.".toList.isPrefixOf G.name) then
    { G with linkage := Linkage.internal }
  else G

/-- The alias loop of `SYCLKernelFilter::runOnModule` (lines 118-120):
every global alias is marked internal. -/
def filterAlias (A : MAlias) : MAlias :=
  { A with linkage := Linkage.internal }

/-- Embedding of `SYCLKernelFilter::runOnModule` (lines 92-128): process
functions, globals and aliases, then drop the static-initializer entries
(`optimizeGlobalCtorsList` with an always-true filter). -/
def filterRunOnModule (dem : Str → Option Str) (M : SModule)
    (R : KernelRegistry) : SModule × KernelRegistry :=
  let fr := filterFunctions dem M.functions R
  ({ functions := fr.1,
     globals := M.globals.map filterGlobal,
     aliases := M.aliases.map filterAlias,
     globalCtors := [] }, fr.2)

/-- `SetKernelTaskMarkerFunctionName` of SYCLSerializeArguments.cpp lines
84-85: the mangled name of the task-marker function whose call sites the
rewrite-from-outside pass looks for. -/
def setKernelTaskMarkerFunctionName : Str :=
  "_ZN2cl4sycl6detail22set_kernel_task_markerERNS1_4taskE".toList

/-- `SerializationFunctionName` of both serialization passes: the mangled
name of `cl::sycl::drt::serialize_arg`. -/
def serializationFunctionName : Str :=
  "_ZN2cl4sycl3drt13serialize_argERNS0_6detail4taskEmPvm".toList

/-- `SetKernelFunctionName` of SYCLSerializeArguments.cpp lines 116-117:
the mangled name of `cl::sycl::drt::set_kernel`. -/
def setKernelFunctionName : Str :=
  "_ZN2cl4sycl3drt10set_kernelERNS0_6detail4taskEPKc".toList

/-- `KernelLaunchingFunctionName` of SYCLSerializeArgumentsInside.cpp
lines 81-82: the mangled name of `cl::sycl::drt::launch_kernel`. -/
def kernelLaunchingFunctionName : Str :=
  "_ZN2cl4sycl3drt13launch_kernelERNS0_6detail4taskEPKc".toList

/-- An instruction as the rewrite-from-outside pass scans it: a direct
call carrying the callee's linkage name and the call arguments' types, or
anything else (non-call instructions and calls with no statically known
callee are both skipped by the scan). -/
inductive Instr where
  | call (callee : Str) (args : List Ty)
  | other
deriving DecidableEq

/-- An instruction emitted by the marshalling rewriter: a
`set_kernel(task, name)` call, one `serialize_arg` call, a
`launch_kernel(task, name)` call, or the `ret void` terminator the
rewrite-from-inside variant appends. -/
inductive Emit where
  | setKernelCall (task : Nat) (kernelName : Str)
  | serializeCall (task : Nat) (c : SerializeCall)
  | launchKernelCall (task : Nat) (kernelName : Str)
  | retVoid
deriving DecidableEq

/-- One step of the call-site scan of `setKernelTask`
(SYCLSerializeArguments.cpp lines 236-245): a direct call to a kernel is
recorded as a kernel call site and overwrites `KernelName` with that
callee's current linkage name. -/
def scanStep (dem : Str → Option Str) (acc : List (Str × List Ty) × Str)
    (i : Instr) : List (Str × List Ty) × Str :=
  match i with
  | Instr.call callee args =>
    if isKernel dem callee then (acc.1 ++ [(callee, args)], callee) else acc
  | Instr.other => acc

/-- The call-site scan of `setKernelTask` over the enclosing function's
basic blocks in order; `KernelName` starts out as the empty string
(default-constructed `StringRef`). -/
def scanKernelCallSites (dem : Str → Option Str)
    (blocks : List (List Instr)) : List (Str × List Ty) × Str :=
  List.foldl (scanStep dem) ([], []) blocks.flatten

/-- The serialize-arg emission of
`SYCLSerializeArguments::serializeKernelArguments` for one kernel call
site, with the lookup of the serialization function in the module's value
symbol table `syms`: a failed lookup is the fatal
`assert(SF && "Serialization function not found")`, embedded as the error
branch naming the missing symbol. -/
def serializeKernelArgumentsEmit (syms : List Str) (allocSize : Ty → Nat)
    (task : Nat) (args : List Ty) : Except Str (List Emit) :=
  if syms.contains serializationFunctionName then
    Except.ok ((serializeArgLoop allocSize 0 args).map (Emit.serializeCall task))
  else
    Except.error serializationFunctionName

/-- The loop of `setKernelTask` (lines 277-278) serializing every
collected kernel call site in order. -/
def serializeAllSites (syms : List Str) (allocSize : Ty → Nat) (task : Nat) :
    List (Str × List Ty) → Except Str (List Emit)
  | [] => Except.ok []
  | s :: rest =>
    match serializeKernelArgumentsEmit syms allocSize task s.2 with
    | Except.ok es =>
      match serializeAllSites syms allocSize task rest with
      | Except.ok es2 => Except.ok (es ++ es2)
      | Except.error e => Except.error e
    | Except.error e => Except.error e

/-- Embedding of `SYCLSerializeArguments::setKernelTask` (lines 230-279)
for one task-marker call whose task operand is `task`: scan the enclosing
function's blocks for kernel call sites, look up the `set_kernel` function
(the fatal `assert(SKF && "Kernel setting function not found")` is the
error branch), emit one `set_kernel(task, KernelName)` call, then
serialize the arguments of every collected kernel call site. -/
def setKernelTask (dem : Str → Option Str) (syms : List Str)
    (allocSize : Ty → Nat) (task : Nat) (blocks : List (List Instr)) :
    Except Str (List Emit) :=
  let scan := scanKernelCallSites dem blocks
  if syms.contains setKernelFunctionName then
    match serializeAllSites syms allocSize task scan.1 with
    | Except.ok es => Except.ok (Emit.setKernelCall task scan.2 :: es)
    | Except.error e => Except.error e
  else
    Except.error setKernelFunctionName

/-- Embedding of the emission of
`SYCLSerializeArgumentsInside::serializeKernelArguments` (lines 105-191):
after the kernel's body is dropped, the remaining arguments (the first,
the task, having been taken by `*A++`) are serialized, then
`launch_kernel(task, F.getName())` and `ret void` are emitted; the two
fatal symbol-table asserts are the error branches. -/
def serializeKernelArgumentsInsideEmit (syms : List Str)
    (allocSize : Ty → Nat) (fname : Str) (task : Nat)
    (argsAfterTask : List Ty) : Except Str (List Emit) :=
  if syms.contains serializationFunctionName then
    if syms.contains kernelLaunchingFunctionName then
      Except.ok
        ((serializeArgLoop allocSize 0 argsAfterTask).map
            (Emit.serializeCall task) ++
          [Emit.launchKernelCall task fname, Emit.retVoid])
    else
      Except.error kernelLaunchingFunctionName
  else
    Except.error serializationFunctionName

/-- The kernel call sites of a function's blocks, flattened in block and
instruction order: spec-side description of the scan of
`setKernelTask`. -/
def kernelCalleeSites (dem : Str → Option Str)
    (blocks : List (List Instr)) : List (Str × List Ty) :=
  blocks.flatten.filterMap fun i =>
    match i with
    | Instr.call callee args =>
      if isKernel dem callee then some (callee, args) else none
    | Instr.other => none

/-- The linkage name of the last kernel callee discovered by the scan, or
the empty string when the blocks contain no kernel call site. -/
def lastKernelCalleeName (dem : Str → Option Str)
    (blocks : List (List Instr)) : Str :=
  ((kernelCalleeSites dem blocks).map Prod.fst).getLastD []

/-- Recognizer for the `set_kernel` emissions. -/
def isSetKernelEmit : Emit → Bool
  | Emit.setKernelCall _ _ => true
  | _ => false

/-- The calling conventions distinguished by the lowering pass: the SPIR
kernel-entry convention and the SPIR plain-function convention it writes,
plus representatives of the conventions a function may carry before the
pass runs. -/
inductive CallConv where
  | spirKernel
  | spirFunc
  | ccC
  | fastcc
deriving DecidableEq

/-- A kernel argument as `inSPIRation::kernelSPIRify` inspects it: its
type and the attributes feeding the type-qualifier metadata
(`onlyReadsMemory`, `hasNoAliasAttr`). -/
structure SPIRArg where
  ty : Ty
  onlyReadsMemory : Bool
  hasNoAliasAttr : Bool
deriving DecidableEq

/-- A metadata payload: a list of integer constants or a list of
strings. -/
inductive MDVal where
  | ints (xs : List Nat)
  | strs (xs : List Str)
deriving DecidableEq

/-- Key lookup in a function's metadata map. -/
def getMD : List (Str × MDVal) → Str → Option MDVal
  | [], _ => none
  | (k2, v2) :: rest, k => if k2 = k then some v2 else getMD rest k

/-- Embedding of `Function::setMetadata`: replace the payload bound to the
kind key, or append a new binding. -/
def setMD : List (Str × MDVal) → Str → MDVal → List (Str × MDVal)
  | [], k, v => [(k, v)]
  | (k2, v2) :: rest, k, v =>
    if k2 = k then (k, v) :: rest else (k2, v2) :: setMD rest k v

/-- A function as inSPIRation.cpp sees it: linkage name, declaration and
intrinsic flags, arguments, calling-convention tag, whether a personality
function is attached, the metadata map, and the basic-block names. -/
structure SPIRFunction where
  name : Str
  isDecl : Bool
  isIntrinsic : Bool
  args : List SPIRArg
  callingConv : CallConv
  hasPersonalityFn : Bool
  metadata : List (Str × MDVal)
  blocks : List Str
deriving DecidableEq

/-- The address-space qualifier of one argument (inSPIRation.cpp lines
168-179): the pointer type's address space, or the default 0 for
non-pointer arguments. -/
def addrSpaceQual (A : SPIRArg) : Nat :=
  match A.ty with
  | Ty.pointer asp _ => asp
  | _ => 0

/-- The type-qualifier string of one argument (inSPIRation.cpp lines
150-160): "const" when the argument only reads memory, then "restrict"
when it carries no-alias, space-joined, absent terms omitted. -/
def buildTypeQualStr (A : SPIRArg) : Str :=
  let q1 : Str := if A.onlyReadsMemory then "const".toList else []
  if A.hasNoAliasAttr then
    (if q1 = [] then "restrict".toList else q1 ++ " restrict".toList)
  else q1

/-- Embedding of `inSPIRation::kernelSPIRify` (inSPIRation.cpp lines
112-211): set the SPIR kernel-entry calling convention, clear the
personality function, attach the per-argument metadata (address space,
type, base type, type qualifier, access qualifier), and stamp the
1x1x1 required work-group size exactly when the `reqd-workgroup-size-1`
switch is set.  The pretty-printing `buildSPIRType` (a fixed sequence of
text substitutions over the printed type) is kept abstract as a
parameter; no claim depends on the text it produces. -/
def kernelSPIRify (reqdWorkGroupSizeOne : Bool)
    (buildSPIRType : SPIRArg → Str) (F : SPIRFunction) : SPIRFunction :=
  let types := MDVal.strs (F.args.map buildSPIRType)
  let md1 := setMD F.metadata "kernel_arg_addr_space".toList
      (MDVal.ints (F.args.map addrSpaceQual))
  let md2 := setMD md1 "kernel_arg_type".toList types
  let md3 := setMD md2 "kernel_arg_base_type".toList types
  let md4 := setMD md3 "kernel_arg_type_qual".toList
      (MDVal.strs (F.args.map buildTypeQualStr))
  let md5 := setMD md4 "kernel_arg_access_qual".toList
      (MDVal.strs (F.args.map (fun _ => "read_write".toList)))
  let md6 := if reqdWorkGroupSizeOne then
      setMD md5 "reqd_work_group_size".toList (MDVal.ints [1, 1, 1])
    else md5
  { F with callingConv := CallConv.spirKernel,
           hasPersonalityFn := false,
           metadata := md6 }

/-- Embedding of `inSPIRation::kernelCallFuncSPIRify` (lines 215-220):
set the SPIR plain-function convention. -/
def kernelCallFuncSPIRify (F : SPIRFunction) : SPIRFunction :=
  { F with callingConv := CallConv.spirFunc }

/-- The basic-block renaming of `inSPIRation::runOnModule`: block number
`i` becomes `label_i`. -/
def renameBlocksLabels (bs : List Str) : List Str :=
  (List.range bs.length).map (fun i => "label_".toList ++ (Nat.repr i).toList)

/-- The function loop of `inSPIRation::runOnModule` (lines 268-302):
declarations are skipped; defined kernels are SPIRified and their blocks
renamed; defined non-kernel non-intrinsic functions get the SPIR function
convention, a fresh `sycl_func_<count>` name from the module-wide counter,
and renamed blocks; intrinsics are left alone. -/
def inSPIRationFunctions (flag : Bool) (b : SPIRArg → Str)
    (dem : Str → Option Str) :
    List SPIRFunction → Nat → List SPIRFunction
  | [], _ => []
  | F :: rest, funcCount =>
    if F.isDecl then F :: inSPIRationFunctions flag b dem rest funcCount
    else if isKernel dem F.name then
      { kernelSPIRify flag b F with blocks := renameBlocksLabels F.blocks } ::
        inSPIRationFunctions flag b dem rest funcCount
    else if F.isIntrinsic then
      F :: inSPIRationFunctions flag b dem rest funcCount
    else
      { kernelCallFuncSPIRify F with
          name := "sycl_func_".toList ++ (Nat.repr funcCount).toList,
          blocks := renameBlocksLabels F.blocks } ::
        inSPIRationFunctions flag b dem rest (funcCount + 1)

/-- The module as inSPIRation.cpp sees it: functions, the named-metadata
table (each name bound to a list of operands), and the target triple
string. -/
structure SPIRModule where
  functions : List SPIRFunction
  namedMD : List (Str × List MDVal)
  targetTriple : Str
deriving DecidableEq

/-- The operand list bound to a named-metadata name (empty when the name
is absent). -/
def getNamedMD : List (Str × List MDVal) → Str → List MDVal
  | [], _ => []
  | (k2, ops) :: rest, k => if k2 = k then ops else getNamedMD rest k

/-- Embedding of `getOrInsertNamedMetadata` followed by `addOperand`:
append one operand to the name's list, creating the binding when
absent. -/
def addNamedMDOperand : List (Str × List MDVal) → Str → MDVal →
    List (Str × List MDVal)
  | [], k, v => [(k, [v])]
  | (k2, ops) :: rest, k, v =>
    if k2 = k then (k2, ops ++ [v]) :: rest
    else (k2, ops) :: addNamedMDOperand rest k v

/-- Embedding of `inSPIRation::setSPIRVersion` (lines 223-236): stamp the
SPIR 2.0 version pair. -/
def setSPIRVersion (nmd : List (Str × List MDVal)) :
    List (Str × List MDVal) :=
  addNamedMDOperand nmd "opencl.spir.version".toList (MDVal.ints [2, 0])

/-- Embedding of `inSPIRation::setOpenCLVersion` (lines 240-254): stamp
the OpenCL 1.2 version pair. -/
def setOpenCLVersion (nmd : List (Str × List MDVal)) :
    List (Str × List MDVal) :=
  addNamedMDOperand nmd "opencl.ocl.version".toList (MDVal.ints [1, 2])

/-- Embedding of `inSPIRation::runOnModule` (lines 264-314): transform
every function, then stamp the SPIR version, the OpenCL version and the
`spir64` target triple unconditionally. -/
def inSPIRationRunOnModule (flag : Bool) (b : SPIRArg → Str)
    (dem : Str → Option Str) (M : SPIRModule) : SPIRModule :=
  { functions := inSPIRationFunctions flag b dem M.functions 0,
    namedMD := setOpenCLVersion (setSPIRVersion M.namedMD),
    targetTriple := "spir64".toList }

/-- Modelled from the spec's wording of 4.7 for C8, relating one input
function to its lowered counterpart: a defined kernel gets the SPIR
kernel-entry convention, a cleared personality association, and carries
the 1x1x1 required-work-group-size metadata exactly when the global
switch is set (its previous binding at that key untouched otherwise); a
defined non-kernel, non-intrinsic function gets the SPIR plain-function
convention. -/
def spirFunctionProp (flag : Bool) (dem : Str → Option Str)
    (F F' : SPIRFunction) : Prop :=
  (F.isDecl = false → isKernel dem F.name = true →
    F'.callingConv = CallConv.spirKernel ∧
    F'.hasPersonalityFn = false ∧
    (flag = true →
      getMD F'.metadata "reqd_work_group_size".toList =
        some (MDVal.ints [1, 1, 1])) ∧
    (flag = false →
      getMD F'.metadata "reqd_work_group_size".toList =
        getMD F.metadata "reqd_work_group_size".toList)) ∧
  (F.isDecl = false → isKernel dem F.name = false → F.isIntrinsic = false →
    F'.callingConv = CallConv.spirFunc)

/-- Well-formedness of the registry state, maintained by registration:
names are bound at most once, no two names share an ID, and every bound ID
is below the counter.  The initial empty registry is well-formed. -/
def KernelRegistry.WF (R : KernelRegistry) : Prop :=
  (R.simplerKernelNames.map Prod.fst).Nodup ∧
  (R.simplerKernelNames.map Prod.snd).Nodup ∧
  ∀ p ∈ R.simplerKernelNames, p.2 < R.nextKernelID

end SYCLSpec

namespace SYCLSpec

theorem lookupName_mem {l : List (Str × Nat)} {n : Str} {i : Nat}
    (h : lookupName l n = some i) : (n, i) ∈ l := by
  induction l with
  | nil => simp [lookupName] at h
  | cons p rest ih =>
    obtain ⟨k, v⟩ := p
    by_cases hk : k = n
    · subst hk
      simp [lookupName] at h
      simp [h]
    · simp [lookupName, hk] at h
      exact List.mem_cons_of_mem _ (ih h)

theorem lookupName_append_of_none {l₁ l₂ : List (Str × Nat)} {n : Str}
    (h : lookupName l₁ n = none) :
    lookupName (l₁ ++ l₂) n = lookupName l₂ n := by
  induction l₁ with
  | nil => simp
  | cons p rest ih =>
    obtain ⟨k, v⟩ := p
    by_cases hk : k = n
    · simp [lookupName, hk] at h
    · simp [lookupName, hk] at h ⊢
      exact ih h

theorem lookupName_append_of_some {l₁ l₂ : List (Str × Nat)} {n : Str}
    {i : Nat} (h : lookupName l₁ n = some i) :
    lookupName (l₁ ++ l₂) n = some i := by
  induction l₁ with
  | nil => simp [lookupName] at h
  | cons p rest ih =>
    obtain ⟨k, v⟩ := p
    by_cases hk : k = n
    · subst hk
      simp [lookupName] at h ⊢
      exact h
    · simp [lookupName, hk] at h ⊢
      exact ih h

theorem wf_id_lt {R : KernelRegistry} (hWF : R.WF) {n : Str} {i : Nat}
    (h : lookupName R.simplerKernelNames n = some i) : i < R.nextKernelID :=
  hWF.2.2 _ (lookupName_mem h)

theorem wf_id_inj {R : KernelRegistry} (hWF : R.WF) {n m : Str} {i j : Nat}
    (hn : lookupName R.simplerKernelNames n = some i)
    (hm : lookupName R.simplerKernelNames m = some j)
    (hnm : n ≠ m) : i ≠ j := by
  intro hij
  subst hij
  have hinj := List.inj_on_of_nodup_map hWF.2.1
  have := hinj (lookupName_mem hn) (lookupName_mem hm) rfl
  exact hnm (congrArg Prod.fst this)

/-- C2: registering an absent long name binds it to the current counter
value and increments the counter; registering a known name returns the
bound ID and leaves the registry unchanged; therefore the short name
obtained for a long name is identical across repeated registrations, and
two distinct long names registered in sequence receive distinct IDs
(assuming the registry state is well-formed). -/
theorem C2_registry_stable (R : KernelRegistry) (n m : Str) (hWF : R.WF) :
    (lookupName R.simplerKernelNames n = none →
      registerSYCLKernel n R =
        (R.nextKernelID,
         ⟨R.simplerKernelNames ++ [(n, R.nextKernelID)],
          R.nextKernelID + 1⟩)) ∧
    (∀ i, lookupName R.simplerKernelNames n = some i →
      registerSYCLKernel n R = (i, R)) ∧
    ((registerSYCLKernelAndGetShortName n
        (registerSYCLKernelAndGetShortName n R).2).1 =
      (registerSYCLKernelAndGetShortName n R).1) ∧
    (n ≠ m →
      (registerSYCLKernel m (registerSYCLKernel n R).2).1 ≠
        (registerSYCLKernel n R).1) := by
  refine ⟨?_, ?_, ?_, ?_⟩
  · intro h
    simp [registerSYCLKernel, h]
  · intro i h
    simp [registerSYCLKernel, h]
  · cases h : lookupName R.simplerKernelNames n with
    | some i =>
      simp [registerSYCLKernelAndGetShortName, registerSYCLKernel, h]
    | none =>
      have h2 : lookupName (R.simplerKernelNames ++ [(n, R.nextKernelID)]) n
          = some R.nextKernelID := by
        rw [lookupName_append_of_none h]
        simp [lookupName]
      simp [registerSYCLKernelAndGetShortName, registerSYCLKernel, h, h2]
  · intro hnm
    cases h : lookupName R.simplerKernelNames n with
    | some i =>
      cases hm : lookupName R.simplerKernelNames m with
      | some j =>
        have hij := wf_id_inj hWF h hm hnm
        simp [registerSYCLKernel, h, hm]
        exact fun e => hij e.symm
      | none =>
        have hi := wf_id_lt hWF h
        simp [registerSYCLKernel, h, hm]
        omega
    | none =>
      cases hm : lookupName R.simplerKernelNames m with
      | some j =>
        have hj := wf_id_lt hWF hm
        have hm2 : lookupName (R.simplerKernelNames ++ [(n, R.nextKernelID)])
            m = some j := lookupName_append_of_some hm
        simp [registerSYCLKernel, h, hm2]
        omega
      | none =>
        have hm2 : lookupName (R.simplerKernelNames ++ [(n, R.nextKernelID)])
            m = none := by
          rw [lookupName_append_of_none hm]
          simp [lookupName, hnm]
        simp [registerSYCLKernel, h, hm2]

/-- Witness for C2 at a concrete registry: an empty well-formed registry,
with names "a" and "b". -/
theorem C2_registry_stable_witness :
    (KernelRegistry.mk [] 0).WF ∧
    ('a' :: [] ≠ 'b' :: []) ∧
    (registerSYCLKernel ('b' :: [])
        (registerSYCLKernel ('a' :: []) ⟨[], 0⟩).2).1 ≠
      (registerSYCLKernel ('a' :: []) ⟨[], 0⟩).1 := by
  refine ⟨⟨by simp, by simp, by simp⟩, by decide, ?_⟩
  exact (C2_registry_stable ⟨[], 0⟩ ('a' :: []) ('b' :: [])
    ⟨by simp, by simp, by simp⟩).2.2.2 (by decide)

theorem shortPfx_isPrefixOf_nil :
    SYCLKernelShortPfx.isPrefixOf [] = false := by
  decide

/-- C3: `isKernel` returns true immediately when the linkage name starts
with the reserved short-name text; otherwise it returns false when
demangling fails, and when demangling succeeds it returns true exactly
when the demangled string starts with the kernel-instantiation marker (an
exact prefix match).  The predicate is a pure function of the demangler
and the name, so two calls on the same state agree by construction (last
conjunct); the hypothesis `hdem` is the demangler collaborator's contract
that the malformed empty input fails to demangle. -/
theorem C3_isKernel_cases (dem : Str → Option Str) (name d : Str)
    (hdem : dem [] = none) :
    (SYCLKernelShortPfx.isPrefixOf name = true → isKernel dem name = true) ∧
    (SYCLKernelShortPfx.isPrefixOf name = false → dem name = none →
      isKernel dem name = false) ∧
    (SYCLKernelShortPfx.isPrefixOf name = false → dem name = some d →
      (isKernel dem name = true ↔ SYCLKernelMarker.isPrefixOf d = true)) ∧
    isKernel dem name = isKernel dem name := by
  refine ⟨?_, ?_, ?_, rfl⟩
  · intro h
    have hne : name.isEmpty = false := by
      cases name with
      | nil => rw [shortPfx_isPrefixOf_nil] at h; exact absurd h (by simp)
      | cons c cs => rfl
    simp [isKernel, hne, h]
  · intro h hd
    cases name with
    | nil => simp [isKernel]
    | cons c cs => simp [isKernel, h, hd]
  · intro h hd
    cases name with
    | nil => rw [hdem] at hd; exact absurd hd (by simp)
    | cons c cs => simp [isKernel, h, hd]

/-- Witness for C3: a demangler that succeeds only on the name "_Zk",
returning the marker text itself, classifies "_Zk" as a kernel. -/
theorem C3_isKernel_cases_witness :
    isKernel (fun s => if s = '_' :: 'Z' :: 'k' :: [] then
      some SYCLKernelMarker else none) ('_' :: 'Z' :: 'k' :: []) = true := by
  have h := (C3_isKernel_cases
    (fun s => if s = '_' :: 'Z' :: 'k' :: [] then some SYCLKernelMarker
      else none)
    ('_' :: 'Z' :: 'k' :: []) SYCLKernelMarker (by decide)).2.2.1
    (by decide) (by decide)
  exact h.mpr (by decide)

theorem specSerializeArg_index (allocSize : Ty → Nat) (p : Nat × Ty) :
    (specSerializeArg allocSize p).index = p.1 := by
  obtain ⟨i, t⟩ := p
  cases t <;> rfl

theorem serializeArgLoop_eq_zip (allocSize : Ty → Nat) (args : List Ty) :
    ∀ k, serializeArgLoop allocSize k args =
      ((List.range' k args.length).zip args).map (specSerializeArg allocSize) := by
  induction args with
  | nil => intro k; rfl
  | cons a rest ih =>
    intro k
    have head :
        serializeOneArg allocSize k a = specSerializeArg allocSize (k, a) := by
      cases a <;> rfl
    simp only [serializeArgLoop, List.length_cons, List.range'_succ,
      List.zip_cons_cons, List.map_cons, ih (k + 1), head]

theorem serialize_eq_specCalls (allocSize : Ty → Nat) (args : List Ty) :
    serializeArgLoop allocSize 0 args = specSerializeCalls allocSize args := by
  rw [serializeArgLoop_eq_zip allocSize args 0, specSerializeCalls,
    List.enum_eq_zip_range, List.range_eq_range']

theorem specCalls_map_index (allocSize : Ty → Nat) (args : List Ty) :
    (specSerializeCalls allocSize args).map SerializeCall.index =
      List.range args.length := by
  rw [specSerializeCalls, List.map_map]
  have : (SerializeCall.index ∘ specSerializeArg allocSize) =
      fun p : Nat × Ty => p.1 := by
    funext p
    exact specSerializeArg_index allocSize p
  rw [this, List.enum_eq_zip_range]
  exact List.map_fst_zip (List.range args.length) args (by simp)

/-- C1: in both serialization passes the emitted serialize-arg calls are
exactly the spec-side list built by pairing each argument with its
position index starting at 0 in original argument order (pointer-like
arguments cast directly with the pointee's allocation size, other
arguments spilled to a fresh alloca with their own type's allocation
size), and in particular the emitted index sequence is 0,1,2,... in
order. -/
theorem C1_serialize_args_in_order (allocSize : Ty → Nat)
    (args argsAfterTask : List Ty) :
    serializeKernelArguments allocSize args =
      specSerializeCalls allocSize args ∧
    (serializeKernelArguments allocSize args).map SerializeCall.index =
      List.range args.length ∧
    serializeKernelArgumentsInside allocSize argsAfterTask =
      specSerializeCalls allocSize argsAfterTask ∧
    (serializeKernelArgumentsInside allocSize argsAfterTask).map
        SerializeCall.index =
      List.range argsAfterTask.length := by
  refine ⟨serialize_eq_specCalls allocSize args, ?_,
    serialize_eq_specCalls allocSize argsAfterTask, ?_⟩
  · rw [serializeKernelArguments, serialize_eq_specCalls]
    exact specCalls_map_index allocSize args
  · rw [serializeKernelArgumentsInside, serialize_eq_specCalls]
    exact specCalls_map_index allocSize argsAfterTask

theorem hasAncestorKernel_eq_first (lst : List Nat) :
    ∀ uses, hasAncestorKernel uses lst =
      (match firstCallSiteParent uses with
       | some parent => lst.contains parent
       | none => false) := by
  intro uses
  induction uses with
  | nil => rfl
  | cons u rest ih =>
    cases u with
    | none => simpa [hasAncestorKernel, firstCallSiteParent] using ih
    | some parent => rfl

theorem processSCC_eq_foldl (dem : Str → Option Str)
    (nodes : List (Option CGFunction)) :
    ∀ lst, processSCC dem nodes lst =
      List.foldl (reachableStep dem) lst nodes := by
  induction nodes with
  | nil => intro lst; rfl
  | cons node rest ih =>
    intro lst
    cases node with
    | none => simp [processSCC, reachableStep, ih]
    | some F =>
      simp only [processSCC, List.foldl_cons, reachableStep,
        hasAncestorKernel_eq_first]
      by_cases h : (isKernel dem F.name ||
          (match firstCallSiteParent F.uses with
           | some parent => lst.contains parent
           | none => false)) = true
      · rw [if_pos h, if_pos h, ih]
      · rw [if_neg h, if_neg h, ih]

/-- C4: the reachability computation processes the strongly-connected
components in the bottom-up enumeration order handed to it (the order
`scc_begin` produces), folding one visitation step per node over the
concatenated component members; and the per-function decision consults
only the parent of the first discovered call-site use — `hasAncestorKernel`
is exactly the membership test of that single caller, so later call sites
from other callers are never examined. -/
theorem C4_reachability_first_caller (dem : Str → Option Str)
    (sccs : List (List (Option CGFunction))) (lst : List Nat) :
    computeAncestorNode dem sccs lst =
      List.foldl (reachableStep dem) lst sccs.flatten ∧
    (∀ uses lst', hasAncestorKernel uses lst' =
      (match firstCallSiteParent uses with
       | some parent => List.contains lst' parent
       | none => false)) := by
  refine ⟨?_, fun uses lst' => hasAncestorKernel_eq_first lst' uses⟩
  induction sccs generalizing lst with
  | nil => rfl
  | cons scc rest ih =>
    rw [show computeAncestorNode dem (scc :: rest) lst =
        computeAncestorNode dem rest (processSCC dem scc lst) from rfl,
      List.flatten_cons, List.foldl_append,
      ← processSCC_eq_foldl dem scc lst]
    exact ih (processSCC dem scc lst)

theorem processSCC_extends (dem : Str → Option Str)
    (nodes : List (Option CGFunction)) :
    ∀ lst, lst <+: processSCC dem nodes lst := by
  induction nodes with
  | nil => intro lst; exact List.prefix_refl lst
  | cons node rest ih =>
    intro lst
    cases node with
    | none => exact ih lst
    | some F =>
      simp only [processSCC]
      by_cases h : (isKernel dem F.name || hasAncestorKernel F.uses lst) = true
      · rw [if_pos h]
        exact (List.prefix_append lst [F.fid]).trans (ih (lst ++ [F.fid]))
      · rw [if_neg h]
        exact ih lst

theorem computeAncestorNode_extends (dem : Str → Option Str)
    (sccs : List (List (Option CGFunction))) :
    ∀ lst, lst <+: computeAncestorNode dem sccs lst := by
  induction sccs with
  | nil => intro lst; exact List.prefix_refl lst
  | cons scc rest ih =>
    intro lst
    exact (processSCC_extends dem scc lst).trans
      (ih (processSCC dem scc lst))

theorem updateList_foldl_extends (newNodes : List CGFunction) :
    ∀ lst, lst <+:
      List.foldl (fun l n => updateHasKernelAncestorFunctionList n l) lst
        newNodes := by
  induction newNodes with
  | nil => intro lst; exact List.prefix_refl lst
  | cons node rest ih =>
    intro lst
    simp only [List.foldl_cons]
    refine List.IsPrefix.trans ?_ (ih (updateHasKernelAncestorFunctionList node lst))
    unfold updateHasKernelAncestorFunctionList
    by_cases h : hasAncestorKernel node.uses lst = true
    · rw [if_pos h]; exact List.prefix_append lst [node.fid]
    · rw [if_neg h]

/-- C5: membership in the reachable-function list is monotonic — the full
computation and any number of incremental updates for newly created
call-graph nodes only ever append to the list (the input list is a prefix
of the output), so a function once added is never removed. -/
theorem C5_reachable_monotonic (dem : Str → Option Str)
    (sccs : List (List (Option CGFunction))) (lst : List Nat)
    (newNodes : List CGFunction) :
    lst <+: computeAncestorNode dem sccs lst ∧
    lst <+:
      List.foldl (fun l n => updateHasKernelAncestorFunctionList n l) lst
        newNodes ∧
    (∀ f, f ∈ lst → f ∈ computeAncestorNode dem sccs lst) ∧
    (∀ f, f ∈ lst →
      f ∈ List.foldl (fun l n => updateHasKernelAncestorFunctionList n l) lst
        newNodes) := by
  refine ⟨computeAncestorNode_extends dem sccs lst,
    updateList_foldl_extends newNodes lst, ?_, ?_⟩
  · exact fun f hf => (computeAncestorNode_extends dem sccs lst).subset hf
  · exact fun f hf => (updateList_foldl_extends newNodes lst).subset hf

/-- Witness for C5: the function with identity 0 stays in the list across
a full computation adding a callee of 0 and an incremental update adding
another. -/
theorem C5_reachable_monotonic_witness :
    (0 : Nat) ∈ computeAncestorNode (fun _ => none)
      [[some ⟨1, 'f' :: [], [some 0]⟩]] [0] ∧
    (0 : Nat) ∈ List.foldl
      (fun l n => updateHasKernelAncestorFunctionList n l) [0]
      [⟨2, 'g' :: [], [some 0]⟩] := by
  exact ⟨(C5_reachable_monotonic (fun _ => none)
      [[some ⟨1, 'f' :: [], [some 0]⟩]] [0]
      [⟨2, 'g' :: [], [some 0]⟩]).2.2.1 0 (by decide),
    (C5_reachable_monotonic (fun _ => none)
      [[some ⟨1, 'f' :: [], [some 0]⟩]] [0]
      [⟨2, 'g' :: [], [some 0]⟩]).2.2.2 0 (by decide)⟩

theorem isPrefixOf_append_self (l t : Str) : l.isPrefixOf (l ++ t) = true := by
  induction l with
  | nil => simp
  | cons c cs ih => simp [List.isPrefixOf, ih]

theorem isKernel_shortName (dem : Str → Option Str) (id : Nat) :
    isKernel dem (constructSYCLKernelShortName id) = true := by
  have hcons : constructSYCLKernelShortName id =
      'T' :: ("RISYCL_kernel_".toList ++ (Nat.repr id).toList) := rfl
  have hne : (constructSYCLKernelShortName id).isEmpty = false := by
    rw [hcons]; rfl
  have hpfx : SYCLKernelShortPfx.isPrefixOf
      (constructSYCLKernelShortName id) = true :=
    isPrefixOf_append_self SYCLKernelShortPfx (Nat.repr id).toList
  simp [isKernel, hne, hpfx]

theorem filterFunctions_linkage_idem (dem : Str → Option Str) :
    ∀ (fs : List MFunction) (R R' : KernelRegistry),
      ((filterFunctions dem (filterFunctions dem fs R).1 R').1).map
          MFunction.linkage =
        ((filterFunctions dem fs R).1).map MFunction.linkage := by
  intro fs
  induction fs with
  | nil => intro R R'; rfl
  | cons F rest ih =>
    intro R R'
    by_cases hd : F.isDecl = true
    · simp only [filterFunctions, hd, if_true, List.map_cons, ih R R']
    · have hd' : F.isDecl = false := by
        cases h : F.isDecl
        · rfl
        · exact absurd h hd
      by_cases hk : isKernel dem F.name = true
      · simp only [filterFunctions, hd', Bool.false_eq_true, if_false, hk,
          if_true, handleKernel, registerSYCLKernelAndGetShortName,
          isKernel_shortName, List.map_cons, ih]
      · have hk' : isKernel dem F.name = false := by
          cases h : isKernel dem F.name
          · rfl
          · exact absurd h hk
        simp only [filterFunctions, hd', Bool.false_eq_true, if_false, hk',
          handleNonKernel, List.map_cons, ih]

theorem filterGlobal_idem (G : MGlobal) :
    filterGlobal (filterGlobal G) = filterGlobal G := by
  cases hd : G.isDecl <;>
    cases hp : (('l' :: 'l' :: 'v' :: 'm' :: '.' :: []).isPrefixOf G.name) <;>
      simp [filterGlobal, hd, hp]

theorem filterAlias_idem (A : MAlias) :
    filterAlias (filterAlias A) = filterAlias A := rfl

/-- C6: running the visibility partitioner a second time on an
already-partitioned module assigns every function, global variable and
alias the same linkage as the first run did: renamed kernels still carry
the short-name text, so they are classified as kernels again and stay
external; non-kernels keep their names and stay internal; globals and
aliases are re-marked identically.  The second run's registry state `R'`
is arbitrary, covering in particular the state the first run left
behind. -/
theorem C6_partitioner_idempotent (dem : Str → Option Str) (M : SModule)
    (R R' : KernelRegistry) :
    ((filterRunOnModule dem (filterRunOnModule dem M R).1 R').1.functions.map
        MFunction.linkage =
      (filterRunOnModule dem M R).1.functions.map MFunction.linkage) ∧
    ((filterRunOnModule dem (filterRunOnModule dem M R).1 R').1.globals.map
        MGlobal.linkage =
      (filterRunOnModule dem M R).1.globals.map MGlobal.linkage) ∧
    ((filterRunOnModule dem (filterRunOnModule dem M R).1 R').1.aliases.map
        MAlias.linkage =
      (filterRunOnModule dem M R).1.aliases.map MAlias.linkage) := by
  have hg : (M.globals.map filterGlobal).map filterGlobal =
      M.globals.map filterGlobal := by
    rw [List.map_map]
    exact List.map_congr_left fun G _ => filterGlobal_idem G
  have ha : (M.aliases.map filterAlias).map filterAlias =
      M.aliases.map filterAlias := by
    rw [List.map_map]
    exact List.map_congr_left fun A _ => filterAlias_idem A
  exact ⟨filterFunctions_linkage_idem dem M.functions R R',
    congrArg (List.map MGlobal.linkage) hg,
    congrArg (List.map MAlias.linkage) ha⟩

theorem toList_injective {s₁ s₂ : String} (h : s₁.toList = s₂.toList) :
    s₁ = s₂ := by
  cases s₁ with
  | mk d₁ =>
    cases s₂ with
    | mk d₂ => exact congrArg String.mk h

/-- C10: handing an already-renamed kernel (name = short text + decimal i)
to the partitioner's kernel handler registers that short name as a brand
new long name: it is bound to the current counter value j, the counter is
incremented, and the function is renamed to short text + decimal j — a
different name whenever the decimals differ.  Previously registered long
names keep their IDs, so only the ID bound to a long name is stable, not
the name of a function partitioned twice. -/
theorem C10_second_partition_renames (R : KernelRegistry) (F : MFunction)
    (i : Nat) (hname : F.name = constructSYCLKernelShortName i)
    (habs : lookupName R.simplerKernelNames F.name = none) :
    (handleKernel R F).1.name =
      constructSYCLKernelShortName R.nextKernelID ∧
    (handleKernel R F).2 =
      ⟨R.simplerKernelNames ++ [(F.name, R.nextKernelID)],
       R.nextKernelID + 1⟩ ∧
    (Nat.repr R.nextKernelID ≠ Nat.repr i →
      (handleKernel R F).1.name ≠ F.name) ∧
    (∀ n id, lookupName R.simplerKernelNames n = some id →
      (registerSYCLKernel n (handleKernel R F).2).1 = id) := by
  have hreg : registerSYCLKernel F.name R =
      (R.nextKernelID,
       ⟨R.simplerKernelNames ++ [(F.name, R.nextKernelID)],
        R.nextKernelID + 1⟩) := by
    simp [registerSYCLKernel, habs]
  have hstate : (handleKernel R F).2 =
      ⟨R.simplerKernelNames ++ [(F.name, R.nextKernelID)],
       R.nextKernelID + 1⟩ := by
    simp [handleKernel, registerSYCLKernelAndGetShortName, hreg]
  refine ⟨?_, hstate, ?_, ?_⟩
  · simp [handleKernel, registerSYCLKernelAndGetShortName, hreg]
  · intro hrepr heq
    rw [show (handleKernel R F).1.name =
        constructSYCLKernelShortName (registerSYCLKernel F.name R).1 from rfl,
      hreg, hname] at heq
    simp only [constructSYCLKernelShortName] at heq
    exact hrepr (toList_injective (List.append_cancel_left heq))
  · intro n id hsome
    have h2 : lookupName (R.simplerKernelNames ++ [(F.name, R.nextKernelID)])
        n = some id := lookupName_append_of_some hsome
    rw [hstate]
    simp [registerSYCLKernel, h2]

/-- Witness for C10: a registry already holding the long name "k" under ID
0 (counter 1); partitioning a kernel already named TRISYCL_kernel_0
renames it to TRISYCL_kernel_1, and "k" keeps ID 0. -/
theorem C10_second_partition_renames_witness :
    (handleKernel ⟨[('k' :: [], 0)], 1⟩
        ⟨constructSYCLKernelShortName 0, false, Linkage.external⟩).1.name =
      constructSYCLKernelShortName 1 ∧
    (handleKernel ⟨[('k' :: [], 0)], 1⟩
        ⟨constructSYCLKernelShortName 0, false, Linkage.external⟩).1.name ≠
      constructSYCLKernelShortName 0 ∧
    (registerSYCLKernel ('k' :: [])
        (handleKernel ⟨[('k' :: [], 0)], 1⟩
          ⟨constructSYCLKernelShortName 0, false,
            Linkage.external⟩).2).1 = 0 := by
  have h := C10_second_partition_renames ⟨[('k' :: [], 0)], 1⟩
    ⟨constructSYCLKernelShortName 0, false, Linkage.external⟩ 0 rfl
    (by decide)
  exact ⟨h.1, h.2.2.1 (by decide), h.2.2.2 ('k' :: []) 0 (by decide)⟩

theorem scan_foldl_spec (dem : Str → Option Str) (l : List Instr) :
    ∀ (acc : List (Str × List Ty)) (nm : Str),
      List.foldl (scanStep dem) (acc, nm) l =
        (acc ++ l.filterMap (fun i =>
          match i with
          | Instr.call callee args =>
            if isKernel dem callee then some (callee, args) else none
          | Instr.other => none),
         ((l.filterMap (fun i =>
            match i with
            | Instr.call callee args =>
              if isKernel dem callee then some (callee, args) else none
            | Instr.other => none)).map Prod.fst).getLastD nm) := by
  induction l with
  | nil => intro acc nm; simp
  | cons i rest ih =>
    intro acc nm
    cases i with
    | other => simpa [scanStep] using ih acc nm
    | call callee args =>
      by_cases hk : isKernel dem callee = true
      · simp only [List.foldl_cons, scanStep, hk, if_true,
          List.filterMap_cons, ih (acc ++ [(callee, args)]) callee,
          List.map_cons, List.getLastD_cons, List.append_assoc,
          List.singleton_append]
      · have hk' : isKernel dem callee = false := by
          cases h : isKernel dem callee
          · rfl
          · exact absurd h hk
        simp only [List.foldl_cons, scanStep, hk', Bool.false_eq_true,
          if_false, List.filterMap_cons, ih acc nm]

theorem scanKernelCallSites_spec (dem : Str → Option Str)
    (blocks : List (List Instr)) :
    scanKernelCallSites dem blocks =
      (kernelCalleeSites dem blocks, lastKernelCalleeName dem blocks) := by
  rw [scanKernelCallSites, scan_foldl_spec dem blocks.flatten [] []]
  rfl

theorem serializeAllSites_ok (syms : List Str) (allocSize : Ty → Nat)
    (task : Nat) :
    ∀ (sites : List (Str × List Ty)) (es : List Emit),
      serializeAllSites syms allocSize task sites = Except.ok es →
      es = (sites.map (fun s =>
        (serializeArgLoop allocSize 0 s.2).map
          (Emit.serializeCall task))).flatten := by
  intro sites
  induction sites with
  | nil =>
    intro es h
    simp only [serializeAllSites, Except.ok.injEq] at h
    simp [← h]
  | cons s rest ih =>
    intro es h
    by_cases hc : syms.contains serializationFunctionName = true
    · simp only [serializeAllSites, serializeKernelArgumentsEmit, hc,
        if_true] at h
      cases hr : serializeAllSites syms allocSize task rest with
      | error e => rw [hr] at h; exact absurd h (by simp)
      | ok es2 =>
        rw [hr] at h
        simp only [Except.ok.injEq] at h
        rw [← h, List.map_cons, List.flatten_cons, ih es2 hr]
    · have hc' : syms.contains serializationFunctionName = false := by
        cases hb : syms.contains serializationFunctionName
        · rfl
        · exact absurd hb hc
      simp only [serializeAllSites, serializeKernelArgumentsEmit, hc',
        Bool.false_eq_true, if_false] at h
      exact absurd h (by simp)

/-- C9: whenever the rewrite-from-outside marshaller succeeds on one
task-marker call, the emitted instruction stream is exactly one
`set_kernel(task, n)` call followed by the serializations of every kernel
call site found in the enclosing function's blocks, where `n` is the
linkage name of the last kernel callee discovered in scan order — so with
several distinct kernel callees in one function, all sites are serialized
against that single last-discovered name, and the stream's only
`set_kernel` emission carries it. -/
theorem C9_single_last_set_kernel (dem : Str → Option Str) (syms : List Str)
    (allocSize : Ty → Nat) (task : Nat) (blocks : List (List Instr))
    (emits : List Emit)
    (hok : setKernelTask dem syms allocSize task blocks = Except.ok emits) :
    emits = Emit.setKernelCall task (lastKernelCalleeName dem blocks) ::
      ((kernelCalleeSites dem blocks).map (fun s =>
        (serializeArgLoop allocSize 0 s.2).map
          (Emit.serializeCall task))).flatten ∧
    emits.filter isSetKernelEmit =
      [Emit.setKernelCall task (lastKernelCalleeName dem blocks)] := by
  by_cases hsk : syms.contains setKernelFunctionName = true
  · rw [setKernelTask] at hok
    simp only [scanKernelCallSites_spec, hsk, if_true] at hok
    cases hs : serializeAllSites syms allocSize task
        (kernelCalleeSites dem blocks) with
    | error e => rw [hs] at hok; exact absurd hok (by simp)
    | ok es =>
      rw [hs] at hok
      simp only [Except.ok.injEq] at hok
      have hes := serializeAllSites_ok syms allocSize task
        (kernelCalleeSites dem blocks) es hs
      have hemits : emits =
          Emit.setKernelCall task (lastKernelCalleeName dem blocks) ::
            ((kernelCalleeSites dem blocks).map (fun s =>
              (serializeArgLoop allocSize 0 s.2).map
                (Emit.serializeCall task))).flatten := by
        rw [← hok, hes]
      refine ⟨hemits, ?_⟩
      rw [hemits]
      have htail : (((kernelCalleeSites dem blocks).map (fun s =>
          (serializeArgLoop allocSize 0 s.2).map
            (Emit.serializeCall task))).flatten).filter isSetKernelEmit
          = [] := by
        rw [List.filter_eq_nil_iff]
        intro e he
        obtain ⟨sub, hsub, hesub⟩ := List.mem_flatten.mp he
        obtain ⟨s, _, hmap⟩ := List.mem_map.mp hsub
        rw [← hmap] at hesub
        obtain ⟨c, _, hc⟩ := List.mem_map.mp hesub
        rw [← hc]
        simp [isSetKernelEmit]
      rw [List.filter_cons, htail]
      rfl
  · have hsk' : syms.contains setKernelFunctionName = false := by
      cases hb : syms.contains setKernelFunctionName
      · rfl
      · exact absurd hb hsk
    rw [setKernelTask] at hok
    simp only [hsk', Bool.false_eq_true, if_false] at hok
    exact absurd hok (by simp)

/-- Witness for C9: a function containing call sites to two distinct
already-renamed kernels (TRISYCL_kernel_0 with one pointer argument,
TRISYCL_kernel_1 with one i32 argument) yields a single set_kernel call
carrying the last-discovered name TRISYCL_kernel_1, followed by the two
sites' serializations. -/
theorem C9_single_last_set_kernel_witness :
    setKernelTask (fun _ => none)
      [serializationFunctionName, setKernelFunctionName] (fun _ => 4) 7
      [[Instr.call (constructSYCLKernelShortName 0) [Ty.pointer 0 (Ty.int 32)],
        Instr.call (constructSYCLKernelShortName 1) [Ty.int 32]]] =
      Except.ok
        [Emit.setKernelCall 7 (constructSYCLKernelShortName 1),
         Emit.serializeCall 7 ⟨0, false, 4⟩,
         Emit.serializeCall 7 ⟨0, true, 4⟩] ∧
    List.filter isSetKernelEmit
        [Emit.setKernelCall 7 (constructSYCLKernelShortName 1),
         Emit.serializeCall 7 ⟨0, false, 4⟩,
         Emit.serializeCall 7 ⟨0, true, 4⟩] =
      [Emit.setKernelCall 7 (lastKernelCalleeName (fun _ => none)
        [[Instr.call (constructSYCLKernelShortName 0) [Ty.pointer 0 (Ty.int 32)],
          Instr.call (constructSYCLKernelShortName 1) [Ty.int 32]]])] := by
  refine ⟨by rfl, ?_⟩
  exact (C9_single_last_set_kernel (fun _ => none)
    [serializationFunctionName, setKernelFunctionName] (fun _ => 4) 7
    [[Instr.call (constructSYCLKernelShortName 0) [Ty.pointer 0 (Ty.int 32)],
      Instr.call (constructSYCLKernelShortName 1) [Ty.int 32]]]
    [Emit.setKernelCall 7 (constructSYCLKernelShortName 1),
     Emit.serializeCall 7 ⟨0, false, 4⟩,
     Emit.serializeCall 7 ⟨0, true, 4⟩] (by rfl)).2

/-- C7: a missing runtime-contract symbol is fatal in both marshaller
variants — the stage stops with an error naming the missing symbol instead
of skipping the kernel: missing `set_kernel` aborts the
rewrite-from-outside task handler; missing `serialize_arg` aborts it as
soon as a kernel call site must be serialized; and in the
rewrite-from-inside variant missing `serialize_arg` or (that present)
missing `launch_kernel` aborts the kernel's rewrite. -/
theorem C7_missing_contract_symbol_fatal (dem : Str → Option Str)
    (syms : List Str) (allocSize : Ty → Nat) (task : Nat)
    (blocks : List (List Instr)) (fname : Str) (argsAfterTask : List Ty) :
    (syms.contains setKernelFunctionName = false →
      setKernelTask dem syms allocSize task blocks =
        Except.error setKernelFunctionName) ∧
    (syms.contains setKernelFunctionName = true →
      syms.contains serializationFunctionName = false →
      kernelCalleeSites dem blocks ≠ [] →
      setKernelTask dem syms allocSize task blocks =
        Except.error serializationFunctionName) ∧
    (syms.contains serializationFunctionName = false →
      serializeKernelArgumentsInsideEmit syms allocSize fname task
        argsAfterTask = Except.error serializationFunctionName) ∧
    (syms.contains serializationFunctionName = true →
      syms.contains kernelLaunchingFunctionName = false →
      serializeKernelArgumentsInsideEmit syms allocSize fname task
        argsAfterTask = Except.error kernelLaunchingFunctionName) := by
  refine ⟨?_, ?_, ?_, ?_⟩
  · intro h
    have h' : setKernelFunctionName ∉ syms := by simpa using h
    rw [setKernelTask]
    simp [h']
  · intro hsk hser hne
    have hsk2 : setKernelFunctionName ∈ syms := by simpa using hsk
    have hser2 : serializationFunctionName ∉ syms := by simpa using hser
    cases hsites : kernelCalleeSites dem blocks with
    | nil => exact absurd hsites hne
    | cons s rest =>
      rw [setKernelTask]
      simp [scanKernelCallSites_spec, hsites, serializeAllSites,
        serializeKernelArgumentsEmit, hsk2, hser2]
  · intro h
    have h' : serializationFunctionName ∉ syms := by simpa using h
    simp [serializeKernelArgumentsInsideEmit, h']
  · intro h1 h2
    have h1' : serializationFunctionName ∈ syms := by simpa using h1
    have h2' : kernelLaunchingFunctionName ∉ syms := by simpa using h2
    simp [serializeKernelArgumentsInsideEmit, h1', h2']

/-- Witness for C7: all four abort cases at concrete symbol tables — the
empty table, a table with only set_kernel but a kernel call site to
serialize, the empty table for the inside variant, and a table with only
serialize_arg but no launch_kernel. -/
theorem C7_missing_contract_symbol_fatal_witness :
    setKernelTask (fun _ => none) [] (fun _ => 0) 0 [[]] =
      Except.error setKernelFunctionName ∧
    setKernelTask (fun _ => none) [setKernelFunctionName] (fun _ => 0) 0
      [[Instr.call (constructSYCLKernelShortName 0) []]] =
      Except.error serializationFunctionName ∧
    serializeKernelArgumentsInsideEmit [] (fun _ => 0) [] 0 [] =
      Except.error serializationFunctionName ∧
    serializeKernelArgumentsInsideEmit [serializationFunctionName]
      (fun _ => 0) [] 0 [] = Except.error kernelLaunchingFunctionName := by
  refine ⟨?_, ?_, ?_, ?_⟩
  · exact (C7_missing_contract_symbol_fatal (fun _ => none) [] (fun _ => 0)
      0 [[]] [] []).1 (by rfl)
  · exact (C7_missing_contract_symbol_fatal (fun _ => none)
      [setKernelFunctionName] (fun _ => 0) 0
      [[Instr.call (constructSYCLKernelShortName 0) []]] [] []).2.1
      (by decide) (by decide) (by decide)
  · exact (C7_missing_contract_symbol_fatal (fun _ => none) [] (fun _ => 0)
      0 [[]] [] []).2.2.1 (by rfl)
  · exact (C7_missing_contract_symbol_fatal (fun _ => none)
      [serializationFunctionName] (fun _ => 0) 0 [[]] [] []).2.2.2
      (by decide) (by decide)

theorem bool_eq_false {b : Bool} (h : ¬(b = true)) : b = false := by
  cases b with
  | false => rfl
  | true => exact absurd rfl h

theorem getMD_setMD_self (md : List (Str × MDVal)) (k : Str) (v : MDVal) :
    getMD (setMD md k v) k = some v := by
  induction md with
  | nil => simp [setMD, getMD]
  | cons p rest ih =>
    obtain ⟨k2, v2⟩ := p
    by_cases h : k2 = k
    · simp [setMD, getMD, h]
    · simp [setMD, getMD, h, ih]

theorem getMD_setMD_ne {md : List (Str × MDVal)} {k : Str} {v : MDVal}
    {k' : Str} (h : k' ≠ k) :
    getMD (setMD md k v) k' = getMD md k' := by
  induction md with
  | nil => simp [setMD, getMD, Ne.symm h]
  | cons p rest ih =>
    obtain ⟨k2, v2⟩ := p
    by_cases h2 : k2 = k
    · subst h2
      simp [setMD, getMD, Ne.symm h]
    · simp [setMD, getMD, h2, ih]

theorem getNamedMD_add_self (nmd : List (Str × List MDVal)) (k : Str)
    (v : MDVal) :
    getNamedMD (addNamedMDOperand nmd k v) k = getNamedMD nmd k ++ [v] := by
  induction nmd with
  | nil => simp [addNamedMDOperand, getNamedMD]
  | cons p rest ih =>
    obtain ⟨k2, ops⟩ := p
    by_cases h : k2 = k
    · simp [addNamedMDOperand, getNamedMD, h]
    · simp [addNamedMDOperand, getNamedMD, h, ih]

theorem getNamedMD_add_ne {nmd : List (Str × List MDVal)} {k : Str}
    {v : MDVal} {k' : Str} (h : k' ≠ k) :
    getNamedMD (addNamedMDOperand nmd k v) k' = getNamedMD nmd k' := by
  induction nmd with
  | nil => simp [addNamedMDOperand, getNamedMD, Ne.symm h]
  | cons p rest ih =>
    obtain ⟨k2, ops⟩ := p
    by_cases h2 : k2 = k
    · subst h2
      simp [addNamedMDOperand, getNamedMD, Ne.symm h]
    · simp [addNamedMDOperand, getNamedMD, h2, ih]

theorem kernelSPIRify_reqd_true (b : SPIRArg → Str) (F : SPIRFunction) :
    getMD (kernelSPIRify true b F).metadata "reqd_work_group_size".toList =
      some (MDVal.ints [1, 1, 1]) := by
  simp only [kernelSPIRify, if_true]
  exact getMD_setMD_self _ _ _

theorem kernelSPIRify_reqd_false (b : SPIRArg → Str) (F : SPIRFunction) :
    getMD (kernelSPIRify false b F).metadata "reqd_work_group_size".toList =
      getMD F.metadata "reqd_work_group_size".toList := by
  have n1 : ("reqd_work_group_size".toList : Str) ≠
      "kernel_arg_access_qual".toList := by decide
  have n2 : ("reqd_work_group_size".toList : Str) ≠
      "kernel_arg_type_qual".toList := by decide
  have n3 : ("reqd_work_group_size".toList : Str) ≠
      "kernel_arg_base_type".toList := by decide
  have n4 : ("reqd_work_group_size".toList : Str) ≠
      "kernel_arg_type".toList := by decide
  have n5 : ("reqd_work_group_size".toList : Str) ≠
      "kernel_arg_addr_space".toList := by decide
  simp only [kernelSPIRify, Bool.false_eq_true, if_false]
  rw [getMD_setMD_ne n1, getMD_setMD_ne n2, getMD_setMD_ne n3,
    getMD_setMD_ne n4, getMD_setMD_ne n5]

theorem inSPIRationFunctions_forall2 (flag : Bool) (b : SPIRArg → Str)
    (dem : Str → Option Str) :
    ∀ (fs : List SPIRFunction) (funcCount : Nat),
      List.Forall₂ (spirFunctionProp flag dem) fs
        (inSPIRationFunctions flag b dem fs funcCount) := by
  intro fs
  induction fs with
  | nil => intro c; exact List.Forall₂.nil
  | cons F rest ih =>
    intro c
    by_cases hd : F.isDecl = true
    · have hstep : inSPIRationFunctions flag b dem (F :: rest) c =
          F :: inSPIRationFunctions flag b dem rest c := by
        simp [inSPIRationFunctions, hd]
      rw [hstep]
      refine List.Forall₂.cons ?_ (ih c)
      constructor
      · intro h0 _; rw [h0] at hd; exact Bool.noConfusion hd
      · intro h0 _ _; rw [h0] at hd; exact Bool.noConfusion hd
    · have hd' : F.isDecl = false := bool_eq_false hd
      by_cases hk : isKernel dem F.name = true
      · have hstep : inSPIRationFunctions flag b dem (F :: rest) c =
            { kernelSPIRify flag b F with
                blocks := renameBlocksLabels F.blocks } ::
              inSPIRationFunctions flag b dem rest c := by
          simp [inSPIRationFunctions, hd', hk]
        rw [hstep]
        refine List.Forall₂.cons ?_ (ih c)
        constructor
        · intro _ _
          refine ⟨rfl, rfl, ?_, ?_⟩
          · intro hf
            subst hf
            exact kernelSPIRify_reqd_true b F
          · intro hf
            subst hf
            exact kernelSPIRify_reqd_false b F
        · intro _ hk2 _
          rw [hk2] at hk
          exact Bool.noConfusion hk
      · have hk' : isKernel dem F.name = false := bool_eq_false hk
        by_cases hi : F.isIntrinsic = true
        · have hstep : inSPIRationFunctions flag b dem (F :: rest) c =
              F :: inSPIRationFunctions flag b dem rest c := by
            simp [inSPIRationFunctions, hd', hk', hi]
          rw [hstep]
          refine List.Forall₂.cons ?_ (ih c)
          constructor
          · intro _ hk2
            rw [hk2] at hk'
            exact Bool.noConfusion hk'
          · intro _ _ hi2
            rw [hi2] at hi
            exact Bool.noConfusion hi
        · have hi' : F.isIntrinsic = false := bool_eq_false hi
          have hstep : inSPIRationFunctions flag b dem (F :: rest) c =
              { kernelCallFuncSPIRify F with
                  name := "sycl_func_".toList ++ (Nat.repr c).toList,
                  blocks := renameBlocksLabels F.blocks } ::
                inSPIRationFunctions flag b dem rest (c + 1) := by
            simp [inSPIRationFunctions, hd', hk', hi']
          rw [hstep]
          refine List.Forall₂.cons ?_ (ih (c + 1))
          constructor
          · intro _ hk2
            rw [hk2] at hk'
            exact Bool.noConfusion hk'
          · intro _ _ _
            rfl

/-- C8: the target-convention lowering keeps the function count, gives
every defined kernel the SPIR kernel-entry convention with its personality
association cleared and stamps the 1x1x1 required-launch-geometry metadata
exactly when the global switch is set (leaving that metadata key untouched
otherwise), gives every defined non-kernel non-intrinsic function the SPIR
plain-function convention, and stamps the SPIR 2.0 version pair, the
OpenCL 1.2 version pair and the `spir64` target identifier
unconditionally. -/
theorem C8_target_convention_lowering (flag : Bool) (b : SPIRArg → Str)
    (dem : Str → Option Str) (M : SPIRModule) :
    M.functions.length =
      (inSPIRationRunOnModule flag b dem M).functions.length ∧
    (∀ i (h₁ : i < M.functions.length)
        (h₂ : i < (inSPIRationRunOnModule flag b dem M).functions.length),
      spirFunctionProp flag dem (M.functions.get ⟨i, h₁⟩)
        ((inSPIRationRunOnModule flag b dem M).functions.get ⟨i, h₂⟩)) ∧
    getNamedMD (inSPIRationRunOnModule flag b dem M).namedMD
        "opencl.spir.version".toList =
      getNamedMD M.namedMD "opencl.spir.version".toList ++
        [MDVal.ints [2, 0]] ∧
    getNamedMD (inSPIRationRunOnModule flag b dem M).namedMD
        "opencl.ocl.version".toList =
      getNamedMD M.namedMD "opencl.ocl.version".toList ++
        [MDVal.ints [1, 2]] ∧
    (inSPIRationRunOnModule flag b dem M).targetTriple =
      "spir64".toList := by
  have hf := inSPIRationFunctions_forall2 flag b dem M.functions 0
  refine ⟨hf.length_eq, ?_, ?_, ?_, rfl⟩
  · intro i h₁ h₂
    exact (List.forall₂_iff_get.mp hf).2 i h₁ h₂
  · have hne : ("opencl.spir.version".toList : Str) ≠
        "opencl.ocl.version".toList := by decide
    show getNamedMD (setOpenCLVersion (setSPIRVersion M.namedMD)) _ = _
    rw [setOpenCLVersion, getNamedMD_add_ne hne, setSPIRVersion,
      getNamedMD_add_self]
  · have hne : ("opencl.ocl.version".toList : Str) ≠
        "opencl.spir.version".toList := by decide
    show getNamedMD (setOpenCLVersion (setSPIRVersion M.namedMD)) _ = _
    rw [setOpenCLVersion, getNamedMD_add_self, setSPIRVersion,
      getNamedMD_add_ne hne]

/-- Witness for C8: lowering a module holding one defined kernel (already
renamed, previously carrying a personality function and the plain C
convention) with the launch-geometry switch set yields the SPIR
kernel-entry convention, no personality, and the 1x1x1 metadata. -/
theorem C8_target_convention_lowering_witness :
    ((inSPIRationRunOnModule true (fun _ => []) (fun _ => none)
        ⟨[⟨constructSYCLKernelShortName 0, false, false, [],
            CallConv.ccC, true, [], []⟩], [], []⟩).functions.get
      ⟨0, by decide⟩).callingConv = CallConv.spirKernel ∧
    ((inSPIRationRunOnModule true (fun _ => []) (fun _ => none)
        ⟨[⟨constructSYCLKernelShortName 0, false, false, [],
            CallConv.ccC, true, [], []⟩], [], []⟩).functions.get
      ⟨0, by decide⟩).hasPersonalityFn = false ∧
    getMD ((inSPIRationRunOnModule true (fun _ => []) (fun _ => none)
        ⟨[⟨constructSYCLKernelShortName 0, false, false, [],
            CallConv.ccC, true, [], []⟩], [], []⟩).functions.get
      ⟨0, by decide⟩).metadata "reqd_work_group_size".toList =
      some (MDVal.ints [1, 1, 1]) := by
  have h := (C8_target_convention_lowering true (fun _ => [])
    (fun _ => none)
    ⟨[⟨constructSYCLKernelShortName 0, false, false, [],
        CallConv.ccC, true, [], []⟩], [], []⟩).2.1 0 (by decide) (by decide)
  have h2 := h.1 (by decide) (by decide)
  exact ⟨h2.1, h2.2.1, h2.2.2.1 rfl⟩

end SYCLSpec
